import Mathlib

/-!
Verification development for the student-scheduling engine
(`scheduling_logic.py`): a two-phase CP-SAT optimization that assigns
students to weekly shifts.  The definitions below are a shallow embedding
of `run_schedule_optimization` and its helpers: the constraint model is
embedded as a decidable feasibility predicate over finite assignment
sets, the exact CP-SAT solve is modelled as an argmax over the finite
solution space, and the result-projection code is embedded directly.
Machine floats of the source are embedded as exact rationals (every
numeric literal in the shift calendar is an exact binary fraction, so
Python float arithmetic on them is exact), and Python `int(...)`
truncation is `pyInt`.
-/

namespace StudentScheduling

attribute [local semireducible] Rat.ofScientific Rat.mul Rat.add Rat.sub Rat.inv

/-- A shift identity `(day, start, end)`, the composite key used by the
Python code (`shift_id = (day, start, end)`). -/
abbrev ShiftId := String × ℚ × ℚ

/-- One entry of `SHIFTS_CONFIG`: `(Day abbreviation, Start hour, End hour,
Required staff count)`.  The Python tuple field `end` is a reserved word in
Lean and is called `endTime` here. -/
structure ShiftCfg where
  day : String
  start : ℚ
  endTime : ℚ
  required : ℕ
deriving DecidableEq, Repr

/-- `shift_id = (day, start, end)` as built in the source. -/
def sid (c : ShiftCfg) : ShiftId := (c.day, c.start, c.endTime)

/-- `shift_length = end - start`. -/
def shiftLen (c : ShiftCfg) : ℚ := c.endTime - c.start

/-- The fixed shift calendar `SHIFTS_CONFIG` of `scheduling_logic.py`. -/
def SHIFTS_CONFIG : List ShiftCfg := [
  ⟨"Mon", 7.25, 9, 3⟩, ⟨"Mon", 9, 12, 4⟩, ⟨"Mon", 12, 15, 3⟩, ⟨"Mon", 15, 17, 4⟩, ⟨"Mon", 17, 19, 3⟩,
  ⟨"Tue", 7.25, 9, 3⟩, ⟨"Tue", 9, 12, 4⟩, ⟨"Tue", 12, 15, 4⟩, ⟨"Tue", 15, 17, 4⟩, ⟨"Tue", 17, 19, 3⟩,
  ⟨"Wed", 7.25, 9, 3⟩, ⟨"Wed", 9, 12, 4⟩, ⟨"Wed", 12, 15, 4⟩, ⟨"Wed", 15, 17, 4⟩, ⟨"Wed", 17, 19, 3⟩,
  ⟨"Thu", 7.25, 9, 3⟩, ⟨"Thu", 9, 12, 4⟩, ⟨"Thu", 12, 15, 4⟩, ⟨"Thu", 15, 17, 4⟩, ⟨"Thu", 17, 19, 3⟩,
  ⟨"Fri", 7.25, 9, 3⟩, ⟨"Fri", 9, 12, 4⟩, ⟨"Fri", 12, 15, 4⟩, ⟨"Fri", 15, 17, 3⟩,
  ⟨"Sat", 10, 14, 2⟩, ⟨"Sun", 10, 14, 2⟩]

/-- `MAX_WEEKLY_HOURS = 20`. -/
def MAX_WEEKLY_HOURS : ℚ := 20

/-- `SCALE = 100`. -/
def SCALE : ℚ := 100

/-- Python `int(...)` on an exact rational: truncation toward zero
(`Int.div` truncates toward zero, and `q.den > 0`). -/
def pyInt (q : ℚ) : ℤ := Int.tdiv q.num q.den

/-- `int(shift_lengths[shift_id] * SCALE)` (line 141/163 of the source). -/
def shiftHoursScaled (c : ShiftCfg) : ℤ := pyInt (shiftLen c * SCALE)

/-- `total_required = Σ required * shift_length` accumulated over the
calendar (line 113). -/
def total_required (shifts : List ShiftCfg) : ℚ :=
  (shifts.map (fun c => (c.required : ℚ) * shiftLen c)).sum

/-- The availability matrix: `availability_matrix[i].get(shift_id, 0)`.
`none` models a `(student, shift)` pair absent from the student's row. -/
abbrev Avail := String → ShiftId → Option ℤ

/-- `availability_matrix[i].get(shift_id, 0)`: an absent pair reads as 0. -/
def availGet (avail : Avail) (i : String) (s : ShiftId) : ℤ :=
  (avail i s).getD 0

/-- A candidate solution: the set (as a list) of `(shift_id, student)`
pairs whose boolean decision variable is assigned `true`. -/
abbrev Sol := List (ShiftId × String)

/-- Whether student `i` is assigned to shift `s` by solution `S`: a
decision variable exists only when availability is 1 (line 123), and the
extraction code re-checks this (`(shift_id, i) in x and
solver.BooleanValue(...)`, line 227). -/
def isAssigned (avail : Avail) (S : Sol) (s : ShiftId) (i : String) : Bool :=
  decide (availGet avail i s = 1) && decide ((s, i) ∈ S)

/-- The per-shift coverage aggregate: `coverage[shift_id] ==
sum(shift_vars)` where `shift_vars` ranges over the students with a
decision variable for this shift (lines 135-138). -/
def coverage (students : List String) (avail : Avail) (S : Sol) (s : ShiftId) : ℤ :=
  (students.map (fun i => if isAssigned avail S s i then (1 : ℤ) else 0)).sum

/-- The per-student scaled hours aggregate: `total_hours[i] ==
sum(x[shift_id, i] * int(shift_length * SCALE))` (lines 159-167). -/
def totalHoursScaled (shifts : List ShiftCfg) (avail : Avail) (S : Sol) (i : String) : ℤ :=
  (shifts.map (fun c => if isAssigned avail S (sid c) i then shiftHoursScaled c else 0)).sum

/-- The value forced onto `coverage_sum` by the model's equalities:
`coverage_sum == Σ_{required > 0} coverage[shift] * int(shift_length *
SCALE)` (lines 140-146). -/
def coverageSumVal (shifts : List ShiftCfg) (students : List String) (avail : Avail) (S : Sol) : ℤ :=
  (shifts.map (fun c =>
    if 0 < c.required then coverage students avail S (sid c) * shiftHoursScaled c else 0)).sum

/-- Lookup in the `student_max_hours` dict (`i in student_max_hours`).
An empty list models `student_max_hours` being `None` or empty (both are
falsy in `if student_max_hours and i in student_max_hours`). -/
def lookupCap : List (String × ℚ) → String → Option ℚ
  | [], _ => none
  | (k, v) :: t, i => if k = i then some v else lookupCap t i

/-- The effective scaled hour cap of student `i`:
`int(student_max_hours[i] * SCALE)` when an override is present, else
`global_max_scaled = int(MAX_WEEKLY_HOURS * SCALE)` (lines 150-157). -/
def effCap (caps : List (String × ℚ)) (i : String) : ℤ :=
  match lookupCap caps i with
  | some m => pyInt (m * SCALE)
  | none => pyInt (MAX_WEEKLY_HOURS * SCALE)

/-- The full constraint model of `run_schedule_optimization` as a
decidable predicate on solutions.  A solution is admitted iff
* for every shift with `required > 0`, the forced value of
  `coverage_hours = coverage * shift_hours` lies in that variable's
  domain `[0, shift_hours * required]` (line 142),
* the forced value of `coverage_sum` lies in its domain
  `[0, int(total_required * SCALE)]` (line 129),
* for every student, the forced value of `total_hours[i]` lies in its
  domain `[0, per_student_max]` (lines 166-168).
The remaining variable domains (`coverage[shift] ∈ [0, len(students)]`)
are satisfied by every assignment and add no constraint. -/
def feasibleB (shifts : List ShiftCfg) (students : List String) (avail : Avail)
    (caps : List (String × ℚ)) (S : Sol) : Bool :=
  (shifts.all fun c =>
    !(decide (0 < c.required)) ||
      (decide (0 ≤ coverage students avail S (sid c) * shiftHoursScaled c) &&
       decide (coverage students avail S (sid c) * shiftHoursScaled c ≤
          shiftHoursScaled c * (c.required : ℤ)))) &&
  decide (0 ≤ coverageSumVal shifts students avail S) &&
  decide (coverageSumVal shifts students avail S ≤ pyInt (total_required shifts * SCALE)) &&
  (students.all fun i =>
    decide (0 ≤ totalHoursScaled shifts avail S i) &&
    decide (totalHoursScaled shifts avail S i ≤ effCap caps i))

/-- Propositional form of `feasibleB`. -/
def Feasible (shifts : List ShiftCfg) (students : List String) (avail : Avail)
    (caps : List (String × ℚ)) (S : Sol) : Prop :=
  feasibleB shifts students avail caps S = true

instance (shifts : List ShiftCfg) (students : List String) (avail : Avail)
    (caps : List (String × ℚ)) (S : Sol) :
    Decidable (Feasible shifts students avail caps S) := by
  unfold Feasible; infer_instance

example : Feasible SHIFTS_CONFIG ["A"] (fun _ _ => none) [] [] := by decide

example :
    Feasible SHIFTS_CONFIG ["A"]
      (fun _ s => if s = ("Mon", 7.25, 9) then some 1 else none) []
      [(("Mon", 7.25, 9), "A")] := by decide

example :
    coverageSumVal SHIFTS_CONFIG ["A"]
      (fun _ s => if s = ("Mon", 7.25, 9) then some 1 else none)
      [(("Mon", 7.25, 9), "A")] = 175 := by decide

/-- The decision variables created by lines 119-124: one boolean per
`(shift_id, student)` pair whose availability is 1, iterating shifts in
calendar order and students in roster order. -/
def varPairs (shifts : List ShiftCfg) (students : List String) (avail : Avail) :
    List (ShiftId × String) :=
  match shifts with
  | [] => []
  | c :: cs =>
    students.filterMap
      (fun i => if availGet avail i (sid c) = 1 then some (sid c, i) else none) ++
    varPairs cs students avail

/-- Every total 0/1 assignment of the decision variables, identified with
the set of variables set to 1, i.e. the sublists of `varPairs`; the
admitted solutions are the ones accepted by `feasibleB`. -/
def feasibleSubsets (shifts : List ShiftCfg) (students : List String) (avail : Avail)
    (caps : List (String × ℚ)) : List Sol :=
  (varPairs shifts students avail).sublists.filter (feasibleB shifts students avail caps)

/-- Pick an element maximizing `f` from a list (`none` on the empty
list). -/
def argmaxBy {α : Type} (f : α → ℤ) : List α → Option α
  | [] => none
  | a :: t =>
    match argmaxBy f t with
    | none => some a
    | some b => if f b ≤ f a then some a else some b

/-- Modelled Phase 1 solve (lines 171-177): the exact CP-SAT solver at
status `OPTIMAL` returns a model-admitted solution maximizing
`coverage_sum`, and yields no solution exactly when the model is
infeasible.  Wall-clock-budget effects (status `FEASIBLE`/`UNKNOWN`) are
real-time behaviour outside this embedding. -/
def solvePhase1 (shifts : List ShiftCfg) (students : List String) (avail : Avail)
    (caps : List (String × ℚ)) : Option Sol :=
  argmaxBy (coverageSumVal shifts students avail) (feasibleSubsets shifts students avail caps)

/-- `best_coverage = solver.Value(coverage_sum)` after Phase 1 (line 182),
i.e. the optimal coverage value; 0 is a dummy for the infeasible case, in
which the code has already returned the sentinel. -/
def phase1Coverage (shifts : List ShiftCfg) (students : List String) (avail : Avail)
    (caps : List (String × ℚ)) : ℤ :=
  match solvePhase1 shifts students avail caps with
  | some S => coverageSumVal shifts students avail S
  | none => 0

/-- Maximum of a list of integers (used only on nonempty lists, mirroring
`AddMaxEquality(max_hours_scaled, all_student_hours)`). -/
def maxList : List ℤ → ℤ
  | [] => 0
  | a :: t => t.foldl max a

/-- Minimum of a list of integers (`AddMinEquality`). -/
def minList : List ℤ → ℤ
  | [] => 0
  | a :: t => t.foldl min a

/-- `fairness_term = max_hours_scaled - min_hours_scaled` (line 202). -/
def fairnessSpread (shifts : List ShiftCfg) (students : List String) (avail : Avail)
    (S : Sol) : ℤ :=
  maxList (students.map (totalHoursScaled shifts avail S)) -
    minList (students.map (totalHoursScaled shifts avail S))

/-- The Phase 2 constraint model (lines 188-203): the Phase 1 model, plus
the lock `coverage_sum == best_coverage` (line 189), plus the domains of
`max_hours_scaled` and `min_hours_scaled`, both `[0, global_max_scaled]`
(lines 195-197), which `AddMaxEquality`/`AddMinEquality` force onto the
max/min of the students' total-hours aggregates. -/
def phase2FeasibleB (shifts : List ShiftCfg) (students : List String) (avail : Avail)
    (caps : List (String × ℚ)) (best : ℤ) (S : Sol) : Bool :=
  feasibleB shifts students avail caps S &&
  decide (coverageSumVal shifts students avail S = best) &&
  decide (0 ≤ maxList (students.map (totalHoursScaled shifts avail S))) &&
  decide (maxList (students.map (totalHoursScaled shifts avail S)) ≤
    pyInt (MAX_WEEKLY_HOURS * SCALE)) &&
  decide (0 ≤ minList (students.map (totalHoursScaled shifts avail S))) &&
  decide (minList (students.map (totalHoursScaled shifts avail S)) ≤
    pyInt (MAX_WEEKLY_HOURS * SCALE))

/-- Modelled Phase 2 (lines 184-206): the solution whose variable values
the extraction then reads.  When `all_student_hours` is empty (no
students) the re-solve is skipped and the Phase 1 solution is read;
otherwise this is a fairness-optimal solution of the Phase 2 model
(minimizing `fairness_term` is maximizing its negation).  `none` models
the re-solve finding no solution: the code ignores the second `Solve`'s
status (line 206), and the subsequent `solver.BooleanValue` calls (line
227) then raise on the solution-less response, so the function returns
no value at all (`RunResult.crash` below).  This path is reachable: a
per-student cap override above `MAX_WEEKLY_HOURS` can make Phase 1 force
a student past `global_max_scaled`, while the fairness variables'
domains are `[0, global_max_scaled]` (lines 195-197), leaving the Phase
2 model infeasible. -/
def solvePhase2 (shifts : List ShiftCfg) (students : List String) (avail : Avail)
    (caps : List (String × ℚ)) : Option Sol :=
  match solvePhase1 shifts students avail caps with
  | none => none
  | some S1 =>
    if students.isEmpty then some S1
    else
      argmaxBy (fun S => -(fairnessSpread shifts students avail S))
        ((feasibleSubsets shifts students avail caps).filter
          (phase2FeasibleB shifts students avail caps
            (coverageSumVal shifts students avail S1)))

example : solvePhase1 SHIFTS_CONFIG ["A"] (fun _ _ => none) [] = some [] := by decide

example : solvePhase2 SHIFTS_CONFIG ["A"] (fun _ _ => none) [] = some [] := by decide

example :
    phase1Coverage SHIFTS_CONFIG ["A"]
      (fun _ s => if s = ("Mon", 7.25, 9) then some 1 else none) [] = 175 := by decide

/-- Python's `f"{x:.2f}"` for the nonnegative shift times of the
calendar, all of which have an exact two-decimal representation (so no
rounding-mode or sign questions arise): print `x*100` hundredths as
`intpart.frac2`. -/
def fmt2 (q : ℚ) : String :=
  let n : ℕ := (pyInt (q * 100)).toNat
  toString (n / 100) ++ "." ++ (if n % 100 < 10 then "0" else "") ++ toString (n % 100)

/-- `shift_key = f"{day} {start:.2f}-{end:.2f}"` (line 218). -/
def shiftKey (c : ShiftCfg) : String :=
  c.day ++ " " ++ fmt2 c.start ++ "-" ++ fmt2 c.endTime

example : shiftKey ⟨"Mon", 7.25, 9, 3⟩ = "Mon 7.25-9.00" := by decide

/-- Python-dict read on an insertion-ordered `(key, value)` write list:
the LAST write to a key wins. -/
def dictGet {α : Type} : List (String × α) → String → Option α
  | [], _ => none
  | p :: t, k =>
    match dictGet t k with
    | some v => some v
    | none => if p.1 = k then some p.2 else none

/-- The students assigned to shift `c` by the extraction loop (lines
226-233), in roster order. -/
def assigned_students_list (students : List String) (avail : Avail) (S : Sol)
    (c : ShiftCfg) : List String :=
  students.filter (fun i => isAssigned avail S (sid c) i)

/-- One schedule record: `{'required': ..., 'assigned_count': ...,
'assigned_students': ...}` plus the `'shift'` label added at line 248. -/
structure ShiftRecord where
  shift : String
  required : ℕ
  assigned_count : ℕ
  assigned_students : String
deriving DecidableEq, Repr

/-- The record stored into `schedule[shift_key]` (lines 236-240); the
`'shift'` field is empty until the display loop adds it. -/
def baseRecord (students : List String) (avail : Avail) (S : Sol) (c : ShiftCfg) :
    ShiftRecord :=
  { shift := ""
    required := c.required
    assigned_count := (assigned_students_list students avail S c).length
    assigned_students :=
      if (assigned_students_list students avail S c).isEmpty then "UNSTAFFED"
      else String.intercalate ", " (assigned_students_list students avail S c) }

/-- The `schedule` dict as its list of writes (lines 216-240). -/
def schedule_dict (shifts : List ShiftCfg) (students : List String) (avail : Avail)
    (S : Sol) : List (String × ShiftRecord) :=
  shifts.map (fun c => (shiftKey c, baseRecord students avail S c))

/-- `display_schedule` (lines 243-249): for each calendar entry in order,
fetch `schedule.get(shift_key)`, set `item['shift']`, and append. -/
def display_schedule (shifts : List ShiftCfg) (students : List String) (avail : Avail)
    (S : Sol) : List ShiftRecord :=
  shifts.filterMap (fun c =>
    (dictGet (schedule_dict shifts students avail S) (shiftKey c)).map
      (fun r => { r with shift := shiftKey c }))

/-- `final_student_hours[i]`: unscaled real hours accumulated over the
student's assigned shifts (lines 210, 232-234). -/
def final_student_hours (shifts : List ShiftCfg) (avail : Avail) (S : Sol)
    (i : String) : ℚ :=
  (shifts.map (fun c => if isAssigned avail S (sid c) i then shiftLen c else 0)).sum

/-- The `final_student_hours` dict, keyed by the roster in order. -/
def student_hours_list (shifts : List ShiftCfg) (students : List String) (avail : Avail)
    (S : Sol) : List (String × ℚ) :=
  students.map (fun i => (i, final_student_hours shifts avail S i))

/-- `shift_keys`: distinct shift labels in first-seen calendar order
(lines 220-221). -/
def shiftKeysList (shifts : List ShiftCfg) : List String :=
  shifts.foldl (fun acc c => if shiftKey c ∈ acc then acc else acc ++ [shiftKey c]) []

/-- Insert into a ≤-sorted list of strings, preserving order. -/
def insertSorted (s : String) : List String → List String
  | [] => [s]
  | t :: ts => if s ≤ t then s :: t :: ts else t :: insertSorted s ts

/-- `sorted(students)`: ascending lexicographic sort (insertion sort). -/
def sortStudents (l : List String) : List String := l.foldr insertSorted []

/-- The per-student row of `visual_assignments[i]` as its list of writes
`(shift_key, 0/1)` (lines 226-230). -/
def visualRow (shifts : List ShiftCfg) (avail : Avail) (S : Sol) (i : String) :
    List (String × ℤ) :=
  shifts.map (fun c => (shiftKey c, if isAssigned avail S (sid c) i then 1 else 0))

/-- `visual_assignments`, keyed by the roster (line 213). -/
def visual_assignments (shifts : List ShiftCfg) (students : List String) (avail : Avail)
    (S : Sol) : List (String × List (String × ℤ)) :=
  students.map (fun i => (i, visualRow shifts avail S i))

/-- `visual_grid_data` (lines 252-256). -/
structure VisualGrid where
  students : List String
  shift_keys : List String
  assignments : List (String × List (String × ℤ))
deriving DecidableEq, Repr

/-- Build the visual grid: sorted student names, ordered shift labels,
per-student 0/1 rows. -/
def visual_grid_data (shifts : List ShiftCfg) (students : List String) (avail : Avail)
    (S : Sol) : VisualGrid :=
  { students := sortStudents students
    shift_keys := shiftKeysList shifts
    assignments := visual_assignments shifts students avail S }

/-- The Result Projector (lines 208-256): project a solved assignment
into the three caller-facing views. -/
def extractResults (shifts : List ShiftCfg) (students : List String) (avail : Avail)
    (S : Sol) : List ShiftRecord × List (String × ℚ) × VisualGrid :=
  (display_schedule shifts students avail S,
   student_hours_list shifts students avail S,
   visual_grid_data shifts students avail S)

/-- The observable outcomes of `run_schedule_optimization`:
* `sentinel`: the `(None, None, None)` return at line 180;
* `success`: the three-view triple returned at line 258;
* `crash`: no value is returned — Phase 2's re-solve found no solution,
  its status was ignored (line 206), and the value extraction's
  `solver.BooleanValue` calls raise an exception. -/
inductive RunResult where
  | sentinel
  | success (displaySchedule : List ShiftRecord)
      (studentHours : List (String × ℚ)) (visualGrid : VisualGrid)
  | crash
deriving DecidableEq, Repr

/-- `run_schedule_optimization(students, availability_matrix,
student_max_hours)`: build the model over `SHIFTS_CONFIG`, run the
two-phase solve, and either return the `(None, None, None)` sentinel
(lines 179-180), extract the three result views from the Phase 2
solution (line 258), or — when the Phase 2 model admits no solution —
raise from inside the extraction (modelled as `RunResult.crash`). -/
def run_schedule_optimization (students : List String) (availability_matrix : Avail)
    (student_max_hours : List (String × ℚ)) : RunResult :=
  match solvePhase1 SHIFTS_CONFIG students availability_matrix student_max_hours with
  | none => RunResult.sentinel
  | some _ =>
    match solvePhase2 SHIFTS_CONFIG students availability_matrix student_max_hours with
    | some S =>
      RunResult.success (display_schedule SHIFTS_CONFIG students availability_matrix S)
        (student_hours_list SHIFTS_CONFIG students availability_matrix S)
        (visual_grid_data SHIFTS_CONFIG students availability_matrix S)
    | none => RunResult.crash

/-- Modelled from the spec, for comparison with the constraint model that
the code actually builds (claim C1's words): an assignment "respects
availability and per-student hour caps" when each student's scaled
assigned hours fit under that student's effective cap — availability is
respected by construction, since only available pairs count as assigned.
Unlike `feasibleB`, this predicate does NOT bound a shift's headcount by
its `required` value. -/
def claimFeasibleB (shifts : List ShiftCfg) (students : List String) (avail : Avail)
    (caps : List (String × ℚ)) (S : Sol) : Bool :=
  students.all fun i =>
    decide (0 ≤ totalHoursScaled shifts avail S i) &&
    decide (totalHoursScaled shifts avail S i ≤ effCap caps i)

/-- Concrete instance: no student has any availability. -/
def availNone : Avail := fun _ _ => none

/-- Concrete instance: every student is available exactly for the Monday
7.25-9 shift. -/
def availMonEarly : Avail := fun _ s => if s = ("Mon", 7.25, 9) then some 1 else none

/-- Concrete solution assigning four students to the Monday 7.25-9 shift
(which requires only 3). -/
def overSol : Sol :=
  [(("Mon", 7.25, 9), "A"), (("Mon", 7.25, 9), "B"),
   (("Mon", 7.25, 9), "C"), (("Mon", 7.25, 9), "D")]

/-- The first calendar entry: Monday 7.25-9, 3 required. -/
def shiftMonEarly : ShiftCfg := ⟨"Mon", 7.25, 9, 3⟩

/-- Concrete instance: every student is available exactly for seven
3-hour shifts (21 hours in total). -/
def availSeven : Avail := fun _ s =>
  if s = ("Mon", 9, 12) ∨ s = ("Mon", 12, 15) ∨ s = ("Tue", 9, 12) ∨
      s = ("Tue", 12, 15) ∨ s = ("Wed", 9, 12) ∨ s = ("Wed", 12, 15) ∨
      s = ("Thu", 9, 12) then some 1 else none

/-- Concrete cap override: student "A" may work 21 hours — positive, so
legal under the spec's input contract, but above `MAX_WEEKLY_HOURS`. -/
def caps21 : List (String × ℚ) := [("A", 21)]

section Lemmas

theorem argmaxBy_mem {α : Type} {f : α → ℤ} {l : List α} {a : α}
    (h : argmaxBy f l = some a) : a ∈ l := by
  induction l with
  | nil => simp [argmaxBy] at h
  | cons b t ih =>
    cases hm : argmaxBy f t with
    | none =>
      simp only [argmaxBy, hm] at h
      injection h with h
      exact h ▸ List.mem_cons_self b t
    | some c =>
      simp only [argmaxBy, hm] at h
      split at h
      · injection h with h; exact h ▸ List.mem_cons_self b t
      · injection h with h; exact List.mem_cons_of_mem b (ih (h ▸ hm))

theorem argmaxBy_eq_none {α : Type} {f : α → ℤ} {l : List α} :
    argmaxBy f l = none ↔ l = [] := by
  cases l with
  | nil => simp [argmaxBy]
  | cons b t =>
    cases hm : argmaxBy f t with
    | none => simp [argmaxBy, hm]
    | some c =>
      simp only [argmaxBy, hm]
      constructor
      · intro h; split at h <;> cases h
      · intro h; cases h

theorem le_argmaxBy {α : Type} {f : α → ℤ} {l : List α} {b a : α}
    (hb : b ∈ l) (ha : argmaxBy f l = some a) : f b ≤ f a := by
  induction l generalizing a with
  | nil => cases hb
  | cons c t ih =>
    rcases List.mem_cons.mp hb with rfl | hbt
    · cases hm : argmaxBy f t with
      | none =>
        simp only [argmaxBy, hm] at ha
        injection ha with ha
        exact ha ▸ le_refl _
      | some d =>
        simp only [argmaxBy, hm] at ha
        split at ha
        · injection ha with ha; exact ha ▸ le_refl _
        · injection ha with ha; exact ha ▸ le_of_not_le (by assumption)
    · cases hm : argmaxBy f t with
      | none => rw [argmaxBy_eq_none.mp hm] at hbt; cases hbt
      | some d =>
        have hbd : f b ≤ f d := ih hbt hm
        simp only [argmaxBy, hm] at ha
        split at ha
        · injection ha with ha; exact ha ▸ le_trans hbd (by assumption)
        · injection ha with ha; exact ha ▸ hbd

theorem sum_map_congr {α β : Type} [AddMonoid β] {l : List α} {f g : α → β}
    (h : ∀ a ∈ l, f a = g a) : (l.map f).sum = (l.map g).sum := by
  induction l with
  | nil => rfl
  | cons a t ih =>
    simp only [List.map_cons, List.sum_cons,
      h a (List.mem_cons_self a t), ih (fun b hb => h b (List.mem_cons_of_mem a hb))]

theorem all_congr_list {α : Type} {l : List α} {f g : α → Bool}
    (h : ∀ a ∈ l, f a = g a) : l.all f = l.all g := by
  induction l with
  | nil => rfl
  | cons a t ih =>
    simp only [List.all_cons,
      h a (List.mem_cons_self a t), ih (fun b hb => h b (List.mem_cons_of_mem a hb))]

theorem mem_varPairs {shifts : List ShiftCfg} {students : List String} {avail : Avail}
    {p : ShiftId × String} (hp : p ∈ varPairs shifts students avail) :
    availGet avail p.2 p.1 = 1 ∧ p.2 ∈ students := by
  induction shifts with
  | nil => simp [varPairs] at hp
  | cons c cs ih =>
    simp only [varPairs, List.mem_append] at hp
    rcases hp with hp | hp
    · rcases List.mem_filterMap.mp hp with ⟨i, hi, hif⟩
      split at hif
      · injection hif with hif
        subst hif
        exact ⟨by assumption, hi⟩
      · cases hif
    · exact ih hp

theorem varPairs_mem_of {shifts : List ShiftCfg} {students : List String} {avail : Avail}
    {c : ShiftCfg} {i : String} (hc : c ∈ shifts) (hi : i ∈ students)
    (ha : availGet avail i (sid c) = 1) :
    (sid c, i) ∈ varPairs shifts students avail := by
  induction shifts with
  | nil => cases hc
  | cons d ds ih =>
    simp only [varPairs, List.mem_append]
    rcases List.mem_cons.mp hc with rfl | hcd
    · exact Or.inl (List.mem_filterMap.mpr ⟨i, hi, by simp [ha]⟩)
    · exact Or.inr (ih hcd)

theorem isAssigned_filter {shifts : List ShiftCfg} {students : List String}
    {avail : Avail} (S : Sol) {c : ShiftCfg} {i : String}
    (hc : c ∈ shifts) (hi : i ∈ students) :
    isAssigned avail ((varPairs shifts students avail).filter (fun p => decide (p ∈ S)))
        (sid c) i =
      isAssigned avail S (sid c) i := by
  by_cases h1 : availGet avail i (sid c) = 1
  · have hmem : ((sid c, i) ∈
        (varPairs shifts students avail).filter (fun p => decide (p ∈ S))) ↔
          ((sid c, i) ∈ S) := by
      rw [List.mem_filter]
      simp only [decide_eq_true_eq]
      exact ⟨fun h => h.2, fun h => ⟨varPairs_mem_of hc hi h1, h⟩⟩
    unfold isAssigned
    rw [decide_eq_decide.mpr hmem]
  · simp [isAssigned, h1]

theorem coverage_congr {students : List String} {avail avail' : Avail} {S S' : Sol}
    {s : ShiftId} (h : ∀ i ∈ students, isAssigned avail S s i = isAssigned avail' S' s i) :
    coverage students avail S s = coverage students avail' S' s :=
  sum_map_congr (fun i hi => by rw [h i hi])

theorem totalHoursScaled_congr {shifts : List ShiftCfg} {avail avail' : Avail}
    {S S' : Sol} {i : String}
    (h : ∀ c ∈ shifts, isAssigned avail S (sid c) i = isAssigned avail' S' (sid c) i) :
    totalHoursScaled shifts avail S i = totalHoursScaled shifts avail' S' i :=
  sum_map_congr (fun c hc => by rw [h c hc])

theorem coverageSumVal_congr {shifts : List ShiftCfg} {students : List String}
    {avail avail' : Avail} {S S' : Sol}
    (h : ∀ c ∈ shifts, ∀ i ∈ students,
      isAssigned avail S (sid c) i = isAssigned avail' S' (sid c) i) :
    coverageSumVal shifts students avail S = coverageSumVal shifts students avail' S' :=
  sum_map_congr (fun c hc => by rw [coverage_congr (h c hc)])

theorem feasibleB_congr {shifts : List ShiftCfg} {students : List String}
    {avail avail' : Avail} {caps : List (String × ℚ)} {S S' : Sol}
    (h : ∀ c ∈ shifts, ∀ i ∈ students,
      isAssigned avail S (sid c) i = isAssigned avail' S' (sid c) i) :
    feasibleB shifts students avail caps S = feasibleB shifts students avail' caps S' := by
  unfold feasibleB
  rw [coverageSumVal_congr h]
  congr 1
  · congr 1
    congr 1
    exact all_congr_list (fun c hc => by rw [coverage_congr (h c hc)])
  · exact all_congr_list (fun i hi => by
      rw [totalHoursScaled_congr (fun c hc => h c hc i hi)])

theorem feasibleB_iff {shifts : List ShiftCfg} {students : List String} {avail : Avail}
    {caps : List (String × ℚ)} {S : Sol} :
    feasibleB shifts students avail caps S = true ↔
      ((∀ c ∈ shifts, 0 < c.required →
          0 ≤ coverage students avail S (sid c) * shiftHoursScaled c ∧
          coverage students avail S (sid c) * shiftHoursScaled c ≤
            shiftHoursScaled c * (c.required : ℤ)) ∧
       0 ≤ coverageSumVal shifts students avail S ∧
       coverageSumVal shifts students avail S ≤ pyInt (total_required shifts * SCALE) ∧
       (∀ i ∈ students, 0 ≤ totalHoursScaled shifts avail S i ∧
          totalHoursScaled shifts avail S i ≤ effCap caps i)) := by
  unfold feasibleB
  simp only [List.all_eq_true, Bool.and_eq_true, decide_eq_true_eq, Bool.or_eq_true,
    Bool.not_eq_true', decide_eq_false_iff_not, Nat.not_lt, Nat.le_zero, and_assoc]
  constructor
  · rintro ⟨hall, h1, h2, h3⟩
    refine ⟨?_, h1, h2, h3⟩
    intro c hc hr
    rcases hall c hc with h0 | hok
    · omega
    · exact hok
  · rintro ⟨hall, h1, h2, h3⟩
    refine ⟨?_, h1, h2, h3⟩
    intro c hc
    by_cases h0 : c.required = 0
    · exact Or.inl h0
    · exact Or.inr (hall c hc (Nat.pos_of_ne_zero h0))

theorem mem_feasibleSubsets_of {shifts : List ShiftCfg} {students : List String}
    {avail : Avail} {caps : List (String × ℚ)} {S : Sol}
    (hsub : List.Sublist S (varPairs shifts students avail))
    (hfe : feasibleB shifts students avail caps S = true) :
    S ∈ feasibleSubsets shifts students avail caps :=
  List.mem_filter.mpr ⟨List.mem_sublists.mpr hsub, hfe⟩

theorem coverageSumVal_le_phase1 {shifts : List ShiftCfg} {students : List String}
    {avail : Avail} {caps : List (String × ℚ)} {S : Sol}
    (hS : feasibleB shifts students avail caps S = true) :
    coverageSumVal shifts students avail S ≤ phase1Coverage shifts students avail caps := by
  have hpt : ∀ c ∈ shifts, ∀ i ∈ students,
      isAssigned avail ((varPairs shifts students avail).filter (fun p => decide (p ∈ S)))
        (sid c) i = isAssigned avail S (sid c) i :=
    fun c hc i hi => isAssigned_filter S hc hi
  have hfeasN : feasibleB shifts students avail caps
      ((varPairs shifts students avail).filter (fun p => decide (p ∈ S))) = true := by
    rw [feasibleB_congr hpt]; exact hS
  have hmemN := mem_feasibleSubsets_of (List.filter_sublist _) hfeasN
  cases hsol : solvePhase1 shifts students avail caps with
  | none =>
    rw [solvePhase1, argmaxBy_eq_none] at hsol
    rw [hsol] at hmemN
    cases hmemN
  | some M =>
    have h1 := le_argmaxBy hmemN hsol
    rw [coverageSumVal_congr hpt] at h1
    rw [phase1Coverage, hsol]
    exact h1

theorem phase1_attained {shifts : List ShiftCfg} {students : List String} {avail : Avail}
    {caps : List (String × ℚ)}
    (hne : feasibleB shifts students avail caps [] = true) :
    ∃ S, feasibleB shifts students avail caps S = true ∧
      coverageSumVal shifts students avail S = phase1Coverage shifts students avail caps := by
  have hmem := mem_feasibleSubsets_of (List.nil_sublist _) hne
  cases hsol : solvePhase1 shifts students avail caps with
  | none =>
    rw [solvePhase1, argmaxBy_eq_none] at hsol
    rw [hsol] at hmem
    cases hmem
  | some M =>
    exact ⟨M, (List.mem_filter.mp (argmaxBy_mem hsol)).2, by rw [phase1Coverage, hsol]⟩

theorem phase1Coverage_nonneg {shifts : List ShiftCfg} {students : List String}
    {avail : Avail} {caps : List (String × ℚ)} :
    0 ≤ phase1Coverage shifts students avail caps := by
  rw [phase1Coverage]
  cases hsol : solvePhase1 shifts students avail caps with
  | none => exact le_refl 0
  | some M =>
    have hM := (List.mem_filter.mp (argmaxBy_mem hsol)).2
    exact (feasibleB_iff.mp hM).2.1

theorem isAssigned_nil {avail : Avail} {s : ShiftId} {i : String} :
    isAssigned avail [] s i = false := by
  simp [isAssigned]

theorem coverage_nil {students : List String} {avail : Avail} {s : ShiftId} :
    coverage students avail [] s = 0 := by
  unfold coverage
  have h0 : ∀ i ∈ students,
      (if isAssigned avail [] s i then (1 : ℤ) else 0) = (0 : ℤ) :=
    fun i _ => by rw [isAssigned_nil]; rfl
  rw [sum_map_congr h0]
  simp

theorem totalHoursScaled_nil {shifts : List ShiftCfg} {avail : Avail} {i : String} :
    totalHoursScaled shifts avail [] i = 0 := by
  unfold totalHoursScaled
  have h0 : ∀ c ∈ shifts,
      (if isAssigned avail [] (sid c) i then shiftHoursScaled c else 0) = (0 : ℤ) :=
    fun c _ => by rw [isAssigned_nil]; rfl
  rw [sum_map_congr h0]
  simp

theorem coverageSumVal_nil {shifts : List ShiftCfg} {students : List String} {avail : Avail} :
    coverageSumVal shifts students avail [] = 0 := by
  unfold coverageSumVal
  have h0 : ∀ c ∈ shifts,
      (if 0 < c.required then coverage students avail [] (sid c) * shiftHoursScaled c
        else 0) = (0 : ℤ) :=
    fun c _ => by rw [coverage_nil]; simp
  rw [sum_map_congr h0]
  simp

theorem isAssigned_of_not_avail {avail : Avail} {S : Sol} {s : ShiftId} {i : String}
    (h : availGet avail i s ≠ 1) : isAssigned avail S s i = false := by
  simp [isAssigned, h]

/-- The zero assignment is admitted by the model whenever every effective
hour cap is nonnegative (for a negative cap, the `total_hours` variable's
domain `[0, per_student_max]` is empty and the whole model is
infeasible). -/
theorem feasibleB_nil {students : List String} {avail : Avail} {caps : List (String × ℚ)}
    (hcap : ∀ i, 0 ≤ effCap caps i) :
    feasibleB SHIFTS_CONFIG students avail caps [] = true := by
  rw [feasibleB_iff]
  have hpos : ∀ c ∈ SHIFTS_CONFIG, 0 < shiftHoursScaled c := by decide
  refine ⟨?_, ?_, ?_, ?_⟩
  · intro c hc _
    rw [coverage_nil, zero_mul]
    exact ⟨le_refl 0, mul_nonneg (le_of_lt (hpos c hc)) (Int.ofNat_nonneg _)⟩
  · rw [coverageSumVal_nil]
  · rw [coverageSumVal_nil]
    decide
  · intro i _
    rw [totalHoursScaled_nil]
    exact ⟨le_refl 0, hcap i⟩

theorem solvePhase1_isSome {shifts : List ShiftCfg} {students : List String}
    {avail : Avail} {caps : List (String × ℚ)}
    (hne : feasibleB shifts students avail caps [] = true) :
    ∃ S1, solvePhase1 shifts students avail caps = some S1 := by
  cases hsol : solvePhase1 shifts students avail caps with
  | none =>
    rw [solvePhase1, argmaxBy_eq_none] at hsol
    have hmem := mem_feasibleSubsets_of (List.nil_sublist _) hne
    rw [hsol] at hmem
    cases hmem
  | some S1 => exact ⟨S1, rfl⟩

theorem le_foldl_max (init : ℤ) (l : List ℤ) : init ≤ l.foldl max init := by
  induction l generalizing init with
  | nil => exact le_refl _
  | cons a t ih => exact le_trans (le_max_left init a) (ih (max init a))

theorem foldl_max_le {b : ℤ} (init : ℤ) (l : List ℤ) (hi : init ≤ b)
    (hl : ∀ x ∈ l, x ≤ b) : l.foldl max init ≤ b := by
  induction l generalizing init with
  | nil => exact hi
  | cons a t ih =>
    exact ih (max init a) (max_le hi (hl a (List.mem_cons_self a t)))
      (fun x hx => hl x (List.mem_cons_of_mem a hx))

theorem foldl_min_le (init : ℤ) (l : List ℤ) : l.foldl min init ≤ init := by
  induction l generalizing init with
  | nil => exact le_refl _
  | cons a t ih => exact le_trans (ih (min init a)) (min_le_left init a)

theorem le_foldl_min {b : ℤ} (init : ℤ) (l : List ℤ) (hi : b ≤ init)
    (hl : ∀ x ∈ l, b ≤ x) : b ≤ l.foldl min init := by
  induction l generalizing init with
  | nil => exact hi
  | cons a t ih =>
    exact ih (min init a) (le_min hi (hl a (List.mem_cons_self a t)))
      (fun x hx => hl x (List.mem_cons_of_mem a hx))

/-- When the Phase 1 model is solvable and every effective cap fits under
`global_max_scaled`, the Phase 2 model is also solvable (the Phase 1
optimum itself satisfies the coverage lock and the fairness variables'
domains), so the re-solve yields a solution to extract. -/
theorem phase2_some_of_caps_le {students : List String} {avail : Avail}
    {caps : List (String × ℚ)} {S1 : Sol}
    (h1 : solvePhase1 SHIFTS_CONFIG students avail caps = some S1)
    (hub : ∀ i, effCap caps i ≤ pyInt (MAX_WEEKLY_HOURS * SCALE)) :
    ∃ S, solvePhase2 SHIFTS_CONFIG students avail caps = some S := by
  unfold solvePhase2
  simp only [h1]
  by_cases hemp : students.isEmpty
  · rw [if_pos hemp]
    exact ⟨S1, rfl⟩
  · rw [if_neg hemp]
    have hfeas : feasibleB SHIFTS_CONFIG students avail caps S1 = true :=
      (List.mem_filter.mp (argmaxBy_mem h1)).2
    have htot : ∀ i ∈ students, 0 ≤ totalHoursScaled SHIFTS_CONFIG avail S1 i ∧
        totalHoursScaled SHIFTS_CONFIG avail S1 i ≤ effCap caps i :=
      (feasibleB_iff.mp hfeas).2.2.2
    cases students with
    | nil => exact absurd rfl hemp
    | cons i0 rest =>
      have h0 := htot i0 (List.mem_cons_self i0 rest)
      have hub0 : totalHoursScaled SHIFTS_CONFIG avail S1 i0 ≤
          pyInt (MAX_WEEKLY_HOURS * SCALE) := le_trans h0.2 (hub i0)
      have helem : ∀ x ∈ rest.map (totalHoursScaled SHIFTS_CONFIG avail S1),
          0 ≤ x ∧ x ≤ pyInt (MAX_WEEKLY_HOURS * SCALE) := by
        intro x hx
        obtain ⟨j, hj, rfl⟩ := List.mem_map.mp hx
        have hjt := htot j (List.mem_cons_of_mem i0 hj)
        exact ⟨hjt.1, le_trans hjt.2 (hub j)⟩
      have hphase2 : phase2FeasibleB SHIFTS_CONFIG (i0 :: rest) avail caps
          (coverageSumVal SHIFTS_CONFIG (i0 :: rest) avail S1) S1 = true := by
        unfold phase2FeasibleB
        simp only [Bool.and_eq_true, decide_eq_true_eq]
        refine ⟨⟨⟨⟨⟨hfeas, by trivial⟩, ?_⟩, ?_⟩, ?_⟩, ?_⟩
        · show (0 : ℤ) ≤ (rest.map _).foldl max (totalHoursScaled SHIFTS_CONFIG avail S1 i0)
          exact le_trans h0.1 (le_foldl_max _ _)
        · show (rest.map _).foldl max (totalHoursScaled SHIFTS_CONFIG avail S1 i0) ≤ _
          exact foldl_max_le _ _ hub0 (fun x hx => (helem x hx).2)
        · show (0 : ℤ) ≤ (rest.map _).foldl min (totalHoursScaled SHIFTS_CONFIG avail S1 i0)
          exact le_foldl_min _ _ h0.1 (fun x hx => (helem x hx).1)
        · show (rest.map _).foldl min (totalHoursScaled SHIFTS_CONFIG avail S1 i0) ≤ _
          exact le_trans (foldl_min_le _ _) hub0
      have hmem2 : S1 ∈ (feasibleSubsets SHIFTS_CONFIG (i0 :: rest) avail caps).filter
          (phase2FeasibleB SHIFTS_CONFIG (i0 :: rest) avail caps
            (coverageSumVal SHIFTS_CONFIG (i0 :: rest) avail S1)) :=
        List.mem_filter.mpr ⟨argmaxBy_mem h1, hphase2⟩
      cases hm : argmaxBy
          (fun S => -(fairnessSpread SHIFTS_CONFIG (i0 :: rest) avail S))
          ((feasibleSubsets SHIFTS_CONFIG (i0 :: rest) avail caps).filter
            (phase2FeasibleB SHIFTS_CONFIG (i0 :: rest) avail caps
              (coverageSumVal SHIFTS_CONFIG (i0 :: rest) avail S1))) with
      | none =>
        rw [argmaxBy_eq_none] at hm
        rw [hm] at hmem2
        cases hmem2
      | some S2 => exact ⟨S2, rfl⟩

/-- A crash outcome implies Phase 1 had produced a solution (the
sentinel path returns before Phase 2 runs). -/
theorem phase1_ne_none_of_crash {students : List String} {avail : Avail}
    {caps : List (String × ℚ)}
    (h : run_schedule_optimization students avail caps = RunResult.crash) :
    solvePhase1 SHIFTS_CONFIG students avail caps ≠ none := by
  intro hn
  unfold run_schedule_optimization at h
  rw [hn] at h
  exact RunResult.noConfusion h

theorem dictGet_map_not_mem {α β : Type} (key : α → String) (v : α → β) {l : List α}
    {k : String} (hk : k ∉ l.map key) :
    dictGet (l.map (fun x => (key x, v x))) k = none := by
  induction l with
  | nil => rfl
  | cons a t ih =>
    simp only [List.map_cons, List.mem_cons, not_or] at hk
    show dictGet ((key a, v a) :: t.map _) k = none
    unfold dictGet
    rw [ih hk.2]
    exact if_neg (fun h => hk.1 h.symm)

theorem dictGet_map_nodup {α β : Type} (key : α → String) (v : α → β) {l : List α}
    {a : α} (hnd : (l.map key).Nodup) (ha : a ∈ l) :
    dictGet (l.map (fun x => (key x, v x))) (key a) = some (v a) := by
  induction l with
  | nil => cases ha
  | cons b t ih =>
    simp only [List.map_cons, List.nodup_cons] at hnd
    rcases List.mem_cons.mp ha with rfl | hat
    · have hnone := dictGet_map_not_mem key v hnd.1
      show dictGet ((key a, v a) :: t.map _) (key a) = _
      unfold dictGet
      rw [hnone]
      exact if_pos rfl
    · have hsome := ih hnd.2 hat
      show dictGet ((key b, v b) :: t.map _) (key a) = _
      unfold dictGet
      rw [hsome]

theorem dictGet_map_self {β : Type} (v : String → β) {l : List String} {i : String}
    (hi : i ∈ l) :
    dictGet (l.map (fun x => (x, v x))) i = some (v i) := by
  induction l with
  | nil => cases hi
  | cons b t ih =>
    by_cases hmem : i ∈ t
    · have hsome := ih hmem
      show dictGet ((b, v b) :: t.map _) i = _
      unfold dictGet
      rw [hsome]
    · have hib : i = b := by
        rcases List.mem_cons.mp hi with h | h
        · exact h
        · exact absurd h hmem
      have hnone : dictGet (t.map (fun x => (x, v x))) i = none := by
        have : i ∉ t.map id := by simpa using hmem
        simpa using dictGet_map_not_mem id v this
      show dictGet ((b, v b) :: t.map _) i = _
      unfold dictGet
      rw [hnone, if_pos hib.symm, hib]

theorem filterMap_eq_map_of {α β : Type} {l : List α} {f : α → Option β} {g : α → β}
    (h : ∀ a ∈ l, f a = some (g a)) : l.filterMap f = l.map g := by
  induction l with
  | nil => rfl
  | cons a t ih =>
    rw [List.filterMap_cons, h a (List.mem_cons_self a t), List.map_cons,
      ih (fun b hb => h b (List.mem_cons_of_mem a hb))]

theorem display_schedule_eq_map {shifts : List ShiftCfg} {students : List String}
    {avail : Avail} {S : Sol} (hkeys : (shifts.map shiftKey).Nodup) :
    display_schedule shifts students avail S =
      shifts.map (fun c => { baseRecord students avail S c with shift := shiftKey c }) := by
  unfold display_schedule
  exact filterMap_eq_map_of (fun c hc => by
    unfold schedule_dict
    rw [dictGet_map_nodup shiftKey (baseRecord students avail S) hkeys hc]
    rfl)

theorem perm_insertSorted (s : String) (l : List String) :
    List.Perm (insertSorted s l) (s :: l) := by
  induction l with
  | nil => exact List.Perm.refl _
  | cons t ts ih =>
    show List.Perm (if s ≤ t then s :: t :: ts else t :: insertSorted s ts) _
    split
    · exact List.Perm.refl _
    · exact (List.Perm.cons t ih).trans (List.Perm.swap s t ts)

theorem perm_sortStudents (l : List String) : List.Perm (sortStudents l) l := by
  induction l with
  | nil => exact List.Perm.refl _
  | cons a t ih =>
    show List.Perm (insertSorted a (sortStudents t)) _
    exact (perm_insertSorted a (sortStudents t)).trans (List.Perm.cons a ih)

theorem sorted_insertSorted (s : String) {l : List String}
    (h : List.Sorted (· ≤ ·) l) : List.Sorted (· ≤ ·) (insertSorted s l) := by
  induction l with
  | nil => simp [insertSorted]
  | cons t ts ih =>
    rw [List.sorted_cons] at h
    show List.Sorted (· ≤ ·) (if s ≤ t then s :: t :: ts else t :: insertSorted s ts)
    split
    · rw [List.sorted_cons]
      refine ⟨?_, List.sorted_cons.mpr h⟩
      intro b hb
      rcases List.mem_cons.mp hb with rfl | hb
      · assumption
      · exact le_trans (by assumption) (h.1 b hb)
    · rw [List.sorted_cons]
      refine ⟨?_, ih h.2⟩
      intro b hb
      have hb2 := (perm_insertSorted s ts).mem_iff.mp hb
      rcases List.mem_cons.mp hb2 with rfl | hb2
      · exact le_of_not_le (by assumption)
      · exact h.1 b hb2

theorem sorted_sortStudents (l : List String) :
    List.Sorted (· ≤ ·) (sortStudents l) := by
  induction l with
  | nil => simp [sortStudents]
  | cons a t ih => exact sorted_insertSorted a ih

theorem shiftKey_mem_shiftKeysList {shifts : List ShiftCfg} {c : ShiftCfg}
    (hc : c ∈ shifts) : shiftKey c ∈ shiftKeysList shifts := by
  suffices h : ∀ acc : List String, shiftKey c ∈ acc ∨ c ∈ shifts →
      shiftKey c ∈ shifts.foldl
        (fun acc d => if shiftKey d ∈ acc then acc else acc ++ [shiftKey d]) acc by
    exact h [] (Or.inr hc)
  clear hc
  induction shifts with
  | nil =>
    intro acc h
    rcases h with h | h
    · exact h
    · cases h
  | cons d ds ih =>
    intro acc h
    show shiftKey c ∈ List.foldl _ (if shiftKey d ∈ acc then acc else acc ++ [shiftKey d]) ds
    rcases h with h | h
    · refine ih _ (Or.inl ?_)
      split
      · exact h
      · exact List.mem_append_left _ h
    · rcases List.mem_cons.mp h with rfl | hds
      · refine ih _ (Or.inl ?_)
        split
        · assumption
        · exact List.mem_append_right _ (List.mem_singleton.mpr rfl)
      · exact ih _ (Or.inr hds)

theorem sum_map_mul_right_q {α : Type} (l : List α) (f : α → ℚ) (b : ℚ) :
    (l.map f).sum * b = (l.map (fun a => f a * b)).sum := by
  induction l with
  | nil => simp
  | cons a t ih =>
    simp only [List.map_cons, List.sum_cons, add_mul, ih]

theorem castSum_int {α : Type} (l : List α) (f : α → ℤ) :
    (((l.map f).sum : ℤ) : ℚ) = (l.map (fun a => ((f a : ℤ) : ℚ))).sum := by
  induction l with
  | nil => simp
  | cons a t ih =>
    simp only [List.map_cons, List.sum_cons, Int.cast_add, ih]

/-- When the two-phase solve produced a solution to read, the run
returns the success triple extracted from it. -/
theorem run_eq_success_of_phase2 {students : List String} {avail : Avail}
    {caps : List (String × ℚ)} {S1 S : Sol}
    (h1 : solvePhase1 SHIFTS_CONFIG students avail caps = some S1)
    (h2 : solvePhase2 SHIFTS_CONFIG students avail caps = some S) :
    run_schedule_optimization students avail caps =
      RunResult.success (display_schedule SHIFTS_CONFIG students avail S)
        (student_hours_list SHIFTS_CONFIG students avail S)
        (visual_grid_data SHIFTS_CONFIG students avail S) := by
  unfold run_schedule_optimization
  simp only [h1, h2]

set_option maxRecDepth 100000 in
set_option maxHeartbeats 2000000 in
/-- At the seven-3h-shift instance with the 21h cap override, Phase 1
forces 2100 scaled hours onto student "A", the Phase 2 fairness
variables' domain `[0, 2000]` makes the re-solve infeasible, and the
run crashes inside the value extraction. -/
theorem availSeven_run_crash :
    run_schedule_optimization ["A"] availSeven caps21 = RunResult.crash := by
  decide

end Lemmas

section Claims

/-- C1, counterexample.  The claim's feasible region ("assignments that
respect availability and per-student hour caps") is larger than the
model's: the model also bounds each positive-`required` shift's coverage
by `required` (see C2).  With four students all available only for the
Monday 7.25-9 shift (`required = 3`) and no cap overrides, assigning all
four respects availability and hour caps and yields coverage 700, while
Phase 1 of the code returns 525; so the returned value is NOT the
maximum of the claim's objective over the claim's region. -/
theorem C1_counterexample :
    claimFeasibleB SHIFTS_CONFIG ["A", "B", "C", "D"] availMonEarly [] overSol = true ∧
    coverageSumVal SHIFTS_CONFIG ["A", "B", "C", "D"] availMonEarly overSol = 700 ∧
    phase1Coverage SHIFTS_CONFIG ["A", "B", "C", "D"] availMonEarly [] = 525 ∧
    phase1Coverage SHIFTS_CONFIG ["A", "B", "C", "D"] availMonEarly [] <
      coverageSumVal SHIFTS_CONFIG ["A", "B", "C", "D"] availMonEarly overSol := by
  refine ⟨by decide, by decide, by decide, by decide⟩

/-- C1, amended: the coverage value returned by Phase 1 (modelled as the
exact optimum of the constraint model) is the maximum, over all
assignments ADMITTED BY THE CONSTRAINT MODEL — availability, per-student
hour caps, and the per-shift bound of at most `required` assignees on
every shift with `required > 0` — of the sum over shifts with
`required > 0` of (number of assigned students × scaled duration); no
admitted assignment attains strictly more, and the value is attained. -/
theorem C1_phase1_coverage_optimal (students : List String) (avail : Avail)
    (caps : List (String × ℚ))
    (hfe : Feasible SHIFTS_CONFIG students avail caps []) :
    (∀ S, Feasible SHIFTS_CONFIG students avail caps S →
      coverageSumVal SHIFTS_CONFIG students avail S ≤
        phase1Coverage SHIFTS_CONFIG students avail caps) ∧
    (∃ S, Feasible SHIFTS_CONFIG students avail caps S ∧
      coverageSumVal SHIFTS_CONFIG students avail S =
        phase1Coverage SHIFTS_CONFIG students avail caps) :=
  ⟨fun _ hS => coverageSumVal_le_phase1 hS, phase1_attained hfe⟩

/-- C1, witness at a concrete input. -/
theorem C1_phase1_coverage_optimal_witness :
    Feasible SHIFTS_CONFIG ["A"] availNone [] [] ∧
    ((∀ S, Feasible SHIFTS_CONFIG ["A"] availNone [] S →
      coverageSumVal SHIFTS_CONFIG ["A"] availNone S ≤
        phase1Coverage SHIFTS_CONFIG ["A"] availNone []) ∧
    (∃ S, Feasible SHIFTS_CONFIG ["A"] availNone [] S ∧
      coverageSumVal SHIFTS_CONFIG ["A"] availNone S =
        phase1Coverage SHIFTS_CONFIG ["A"] availNone [])) :=
  ⟨by decide, C1_phase1_coverage_optimal ["A"] availNone [] (by decide)⟩

/-- C2: in every solution admitted by the constraint model, a shift with
`required > 0` is assigned at most `required` students: its
`coverage_hours` variable is bounded by `shift_hours * required` and
constrained equal to `coverage * shift_hours`, and every calendar
shift's scaled duration is positive. -/
theorem C2_coverage_at_most_required (students : List String) (avail : Avail)
    (caps : List (String × ℚ)) (S : Sol) (c : ShiftCfg)
    (hS : Feasible SHIFTS_CONFIG students avail caps S)
    (hc : c ∈ SHIFTS_CONFIG) (hr : 0 < c.required) :
    coverage students avail S (sid c) ≤ (c.required : ℤ) := by
  have hpos : 0 < shiftHoursScaled c := by
    have hall : ∀ d ∈ SHIFTS_CONFIG, 0 < shiftHoursScaled d := by decide
    exact hall c hc
  have hb := ((feasibleB_iff.mp hS).1 c hc hr).2
  rw [mul_comm (shiftHoursScaled c) ((c.required : ℤ))] at hb
  exact le_of_mul_le_mul_right hb hpos

/-- C2, witness at a concrete input. -/
theorem C2_coverage_at_most_required_witness :
    Feasible SHIFTS_CONFIG ["A"] availNone [] [] ∧ shiftMonEarly ∈ SHIFTS_CONFIG ∧
    0 < shiftMonEarly.required ∧
    coverage ["A"] availNone [] (sid shiftMonEarly) ≤ (shiftMonEarly.required : ℤ) :=
  ⟨by decide, by decide, by decide,
    C2_coverage_at_most_required ["A"] availNone [] [] shiftMonEarly
      (by decide) (by decide) (by decide)⟩

/-- C3: every solution admitted by the model keeps student `i`'s scaled
assigned hours (sum of `int(duration * 100)` over assigned shifts) at or
below `i`'s effective scaled cap, which is `int(student_max_hours[i] *
100)` when an override is present and `int(20 * 100) = 2000`
otherwise. -/
theorem C3_hour_cap_hard (students : List String) (avail : Avail)
    (caps : List (String × ℚ)) (S : Sol) (i : String)
    (hS : Feasible SHIFTS_CONFIG students avail caps S) (hi : i ∈ students) :
    totalHoursScaled SHIFTS_CONFIG avail S i ≤ effCap caps i ∧
    (∀ m, lookupCap caps i = some m → effCap caps i = pyInt (m * SCALE)) ∧
    (lookupCap caps i = none → effCap caps i = 2000) := by
  refine ⟨((feasibleB_iff.mp hS).2.2.2 i hi).2, ?_, ?_⟩
  · intro m hm
    unfold effCap
    rw [hm]
  · intro hm
    unfold effCap
    rw [hm]
    decide

/-- C3, witness at a concrete input. -/
theorem C3_hour_cap_hard_witness :
    Feasible SHIFTS_CONFIG ["A"] availNone [] [] ∧ "A" ∈ (["A"] : List String) ∧
    totalHoursScaled SHIFTS_CONFIG availNone [] "A" ≤ effCap [] "A" :=
  ⟨by decide, by decide,
    (C3_hour_cap_hard ["A"] availNone [] [] "A" (by decide) (by decide)).1⟩

/-- C4, counterexample.  "In every other case it returns a triple" is
false of the program: with one student capped at 21 hours (positive,
hence legal under the spec's input contract) and available for exactly
seven 3-hour shifts, Phase 1 succeeds and forces 2100 scaled hours onto
the student, but the Phase 2 fairness variables' domains are
`[0, int(MAX_WEEKLY_HOURS * SCALE)] = [0, 2000]`, so the re-solve is
infeasible; the code ignores its status and the value extraction raises
— the function returns neither the sentinel nor a triple. -/
theorem C4_counterexample :
    solvePhase1 SHIFTS_CONFIG ["A"] availSeven caps21 ≠ none ∧
    run_schedule_optimization ["A"] availSeven caps21 = RunResult.crash ∧
    (∀ d h g,
      run_schedule_optimization ["A"] availSeven caps21 ≠ RunResult.success d h g) ∧
    run_schedule_optimization ["A"] availSeven caps21 ≠ RunResult.sentinel := by
  refine ⟨phase1_ne_none_of_crash availSeven_run_crash, availSeven_run_crash, ?_, ?_⟩
  · intro d h g hc
    rw [availSeven_run_crash] at hc
    exact RunResult.noConfusion hc
  · rw [availSeven_run_crash]
    intro hc
    exact RunResult.noConfusion hc

/-- C4, amended: the sentinel `(None, None, None)` is returned exactly
when the Phase 1 solve yields no solution; when Phase 1 yields a
solution AND the Phase 2 model remains solvable — in particular whenever
every effective hour cap is at most the global scaled cap
`int(MAX_WEEKLY_HOURS * SCALE)` — the run returns a triple whose display
schedule, student-hours mapping, and visual grid are all present; and
the remaining outcome, an exception raised during value extraction,
occurs exactly when Phase 1 succeeded but the Phase 2 re-solve found no
solution. -/
theorem C4_sentinel_iff (students : List String) (avail : Avail)
    (caps : List (String × ℚ)) :
    (run_schedule_optimization students avail caps = RunResult.sentinel ↔
      solvePhase1 SHIFTS_CONFIG students avail caps = none) ∧
    (∀ S1, solvePhase1 SHIFTS_CONFIG students avail caps = some S1 →
      (∀ i, effCap caps i ≤ pyInt (MAX_WEEKLY_HOURS * SCALE)) →
      ∃ d h g, run_schedule_optimization students avail caps =
        RunResult.success d h g) ∧
    (run_schedule_optimization students avail caps = RunResult.crash ↔
      (∃ S1, solvePhase1 SHIFTS_CONFIG students avail caps = some S1) ∧
      solvePhase2 SHIFTS_CONFIG students avail caps = none) := by
  refine ⟨?_, ?_, ?_⟩
  · unfold run_schedule_optimization
    cases h1 : solvePhase1 SHIFTS_CONFIG students avail caps with
    | none => simp
    | some S1 =>
      cases h2 : solvePhase2 SHIFTS_CONFIG students avail caps with
      | none => simp
      | some S => simp
  · intro S1 h1 hub
    obtain ⟨S, h2⟩ := phase2_some_of_caps_le h1 hub
    exact ⟨display_schedule SHIFTS_CONFIG students avail S,
      student_hours_list SHIFTS_CONFIG students avail S,
      visual_grid_data SHIFTS_CONFIG students avail S,
      run_eq_success_of_phase2 h1 h2⟩
  · unfold run_schedule_optimization
    cases h1 : solvePhase1 SHIFTS_CONFIG students avail caps with
    | none => simp
    | some S1 =>
      cases h2 : solvePhase2 SHIFTS_CONFIG students avail caps with
      | none => simp
      | some S => simp

/-- C4, witness at a concrete input. -/
theorem C4_sentinel_iff_witness :
    ∃ d h g,
      run_schedule_optimization ["A"] availNone [] = RunResult.success d h g :=
  (C4_sentinel_iff ["A"] availNone []).2.1 [] (by decide) (fun _ => le_of_eq rfl)

/-- C5: Phase 2's model contains the hard lock `coverage_sum ==
best_coverage`, so every solution it admits has coverage aggregate
exactly `best_coverage` (and still satisfies the Phase 1 model); and
every solution the two-phase pipeline extracts has coverage equal to the
Phase 1 optimum. -/
theorem C5_phase2_coverage_locked (students : List String) (avail : Avail)
    (caps : List (String × ℚ)) :
    (∀ best S, phase2FeasibleB SHIFTS_CONFIG students avail caps best S = true →
      coverageSumVal SHIFTS_CONFIG students avail S = best ∧
      Feasible SHIFTS_CONFIG students avail caps S) ∧
    (∀ S, solvePhase2 SHIFTS_CONFIG students avail caps = some S →
      coverageSumVal SHIFTS_CONFIG students avail S =
        phase1Coverage SHIFTS_CONFIG students avail caps) := by
  constructor
  · intro best S h
    unfold phase2FeasibleB at h
    simp only [Bool.and_eq_true, decide_eq_true_eq] at h
    exact ⟨h.1.1.1.1.2, h.1.1.1.1.1⟩
  · intro S h
    unfold solvePhase2 at h
    cases hsol : solvePhase1 SHIFTS_CONFIG students avail caps with
    | none =>
      rw [hsol] at h
      exact Option.noConfusion h
    | some S1 =>
      simp only [hsol] at h
      rw [phase1Coverage, hsol]
      by_cases hemp : students.isEmpty
      · rw [if_pos hemp] at h
        injection h with h
        rw [← h]
      · rw [if_neg hemp] at h
        have hmem := (List.mem_filter.mp (argmaxBy_mem h)).2
        unfold phase2FeasibleB at hmem
        simp only [Bool.and_eq_true, decide_eq_true_eq] at hmem
        exact hmem.1.1.1.1.2

/-- C5, witness at a concrete input. -/
theorem C5_phase2_coverage_locked_witness :
    coverageSumVal SHIFTS_CONFIG ["A"] availNone [] =
      phase1Coverage SHIFTS_CONFIG ["A"] availNone [] :=
  (C5_phase2_coverage_locked ["A"] availNone []).2 [] (by decide)

/-- C6, counterexample.  "The overall result is a success triple" does
not hold for every input: at the seven-3h-shift instance with the 21h
cap override (a positive cap, legal under the spec's input contract,
and nonnegative as the zero-assignment argument requires), the all-zero
assignment does satisfy every constraint and Phase 1 succeeds, yet the
run crashes during extraction after the infeasible Phase 2 re-solve —
it produces neither the success triple nor the sentinel. -/
theorem C6_counterexample :
    (∀ i, 0 ≤ effCap caps21 i) ∧
    Feasible SHIFTS_CONFIG ["A"] availSeven caps21 [] ∧
    run_schedule_optimization ["A"] availSeven caps21 = RunResult.crash ∧
    (∀ d h g,
      run_schedule_optimization ["A"] availSeven caps21 ≠ RunResult.success d h g) := by
  refine ⟨?_, by decide, availSeven_run_crash, ?_⟩
  · intro i
    by_cases hA : "A" = i
    · simp only [caps21, effCap, lookupCap, if_pos hA]
      decide
    · simp only [caps21, effCap, lookupCap, if_neg hA]
      decide
  · intro d h g hc
    rw [availSeven_run_crash] at hc
    exact RunResult.noConfusion hc

/-- C6, amended: whenever every effective hour cap is nonnegative (the
spec's input contract requires positive caps) the all-zero assignment
satisfies every constraint of the model, so the infeasibility sentinel
is never returned; and when additionally every effective cap is at most
the global scaled cap `int(MAX_WEEKLY_HOURS * SCALE)` — so that the
Phase 2 re-solve cannot fail — the run returns a success triple in
which every shift with no available student is reported with
`assigned_count = 0` and `assigned_students = "UNSTAFFED"`. -/
theorem C6_unstaffed_is_success (students : List String) (avail : Avail)
    (caps : List (String × ℚ)) (hcap : ∀ i, 0 ≤ effCap caps i)
    (hub : ∀ i, effCap caps i ≤ pyInt (MAX_WEEKLY_HOURS * SCALE)) :
    Feasible SHIFTS_CONFIG students avail caps [] ∧
    run_schedule_optimization students avail caps ≠ RunResult.sentinel ∧
    (∃ d h g,
      run_schedule_optimization students avail caps = RunResult.success d h g) ∧
    (∀ d h g, run_schedule_optimization students avail caps = RunResult.success d h g →
      ∀ c ∈ SHIFTS_CONFIG, (∀ i ∈ students, availGet avail i (sid c) ≠ 1) →
        ({ shift := shiftKey c, required := c.required, assigned_count := 0,
           assigned_students := "UNSTAFFED" } : ShiftRecord) ∈ d) := by
  have hnil : feasibleB SHIFTS_CONFIG students avail caps [] = true := feasibleB_nil hcap
  obtain ⟨S1, h1⟩ := solvePhase1_isSome hnil
  obtain ⟨S, h2⟩ := phase2_some_of_caps_le h1 hub
  have hrun := run_eq_success_of_phase2 h1 h2
  refine ⟨hnil, ?_, ⟨_, _, _, hrun⟩, ?_⟩
  · rw [hrun]
    intro hc
    exact RunResult.noConfusion hc
  · intro d h g hrun2 c hc hna
    rw [hrun] at hrun2
    injection hrun2 with hd hh hg
    have hkeys : (SHIFTS_CONFIG.map shiftKey).Nodup := by decide
    rw [← hd, display_schedule_eq_map hkeys]
    refine List.mem_map.mpr ⟨c, hc, ?_⟩
    have hempty : assigned_students_list students avail S c = [] := by
      unfold assigned_students_list
      rw [List.filter_eq_nil_iff]
      intro i hi
      rw [isAssigned_of_not_avail (hna i hi)]
      simp
    show ({ baseRecord students avail S c with shift := shiftKey c } : ShiftRecord) = _
    unfold baseRecord
    rw [hempty]
    rfl

/-- C6, witness at a concrete input. -/
theorem C6_unstaffed_is_success_witness :
    (∀ i, 0 ≤ effCap ([] : List (String × ℚ)) i) ∧
    (∀ i, effCap ([] : List (String × ℚ)) i ≤ pyInt (MAX_WEEKLY_HOURS * SCALE)) ∧
    (Feasible SHIFTS_CONFIG ["A"] availNone [] [] ∧
     run_schedule_optimization ["A"] availNone [] ≠ RunResult.sentinel ∧
     (∃ d h g,
       run_schedule_optimization ["A"] availNone [] = RunResult.success d h g) ∧
     (∀ d h g, run_schedule_optimization ["A"] availNone [] = RunResult.success d h g →
       ∀ c ∈ SHIFTS_CONFIG,
         (∀ i ∈ (["A"] : List String), availGet availNone i (sid c) ≠ 1) →
         ({ shift := shiftKey c, required := c.required, assigned_count := 0,
            assigned_students := "UNSTAFFED" } : ShiftRecord) ∈ d)) := by
  have hcap : ∀ i, 0 ≤ effCap ([] : List (String × ℚ)) i := by
    intro i
    simp only [effCap, lookupCap]
    decide
  have hub : ∀ i, effCap ([] : List (String × ℚ)) i ≤
      pyInt (MAX_WEEKLY_HOURS * SCALE) := fun _ => le_of_eq rfl
  exact ⟨hcap, hub, C6_unstaffed_is_success ["A"] availNone [] hcap hub⟩

/-- C7: a decision variable exists for `(shift, student)` iff the
availability lookup yields 1; a pair absent from the matrix reads as 0;
and a pair whose availability is not 1 is never assigned — in the
solution semantics, in the per-shift assigned-students list, and in the
visual grid row, whose entry for that shift is 0. -/
theorem C7_vars_only_for_available (shifts : List ShiftCfg) (students : List String)
    (avail : Avail) (S : Sol) (c : ShiftCfg) (i : String) :
    (c ∈ shifts → i ∈ students →
      ((sid c, i) ∈ varPairs shifts students avail ↔ availGet avail i (sid c) = 1)) ∧
    (avail i (sid c) = none → availGet avail i (sid c) = 0) ∧
    (availGet avail i (sid c) ≠ 1 →
      isAssigned avail S (sid c) i = false ∧
      i ∉ assigned_students_list students avail S c ∧
      (c ∈ shifts → (shiftKey c, (0 : ℤ)) ∈ visualRow shifts avail S i)) := by
  refine ⟨?_, ?_, ?_⟩
  · intro hc hi
    exact ⟨fun hm => (mem_varPairs hm).1, fun ha => varPairs_mem_of hc hi ha⟩
  · intro h
    unfold availGet
    rw [h]
    rfl
  · intro h
    refine ⟨isAssigned_of_not_avail h, ?_, ?_⟩
    · intro hmem
      unfold assigned_students_list at hmem
      have hm2 := (List.mem_filter.mp hmem).2
      rw [isAssigned_of_not_avail h] at hm2
      cases hm2
    · intro hc
      refine List.mem_map.mpr ⟨c, hc, ?_⟩
      show (shiftKey c, if isAssigned avail S (sid c) i then (1 : ℤ) else 0) = _
      rw [isAssigned_of_not_avail h]
      rfl

/-- C7, witness at a concrete input. -/
theorem C7_vars_only_for_available_witness :
    ((sid shiftMonEarly, "A") ∈ varPairs SHIFTS_CONFIG ["A"] availNone ↔
      availGet availNone "A" (sid shiftMonEarly) = 1) ∧
    availGet availNone "A" (sid shiftMonEarly) = 0 ∧
    isAssigned availNone [] (sid shiftMonEarly) "A" = false :=
  ⟨(C7_vars_only_for_available SHIFTS_CONFIG ["A"] availNone [] shiftMonEarly "A").1
      (by decide) (by decide),
   (C7_vars_only_for_available SHIFTS_CONFIG ["A"] availNone [] shiftMonEarly "A").2.1 rfl,
   ((C7_vars_only_for_available SHIFTS_CONFIG ["A"] availNone [] shiftMonEarly "A").2.2
      (by decide)).1⟩

/-- C8: optimal Phase 1 coverage is monotone in availability — enlarging
the set of available `(student, shift)` pairs can only increase the
optimum. -/
theorem C8_coverage_monotone (shifts : List ShiftCfg) (students : List String)
    (caps : List (String × ℚ)) (availA availB : Avail)
    (hmono : ∀ i s, availGet availA i s = 1 → availGet availB i s = 1) :
    phase1Coverage shifts students availA caps ≤
      phase1Coverage shifts students availB caps := by
  cases hsol : solvePhase1 shifts students availA caps with
  | none =>
    rw [phase1Coverage, hsol]
    exact phase1Coverage_nonneg
  | some SA =>
    rw [phase1Coverage, hsol]
    have hmemA := argmaxBy_mem hsol
    have hfeasA : feasibleB shifts students availA caps SA = true :=
      (List.mem_filter.mp hmemA).2
    have hsubA : List.Sublist SA (varPairs shifts students availA) :=
      List.mem_sublists.mp (List.mem_filter.mp hmemA).1
    have hpt : ∀ c ∈ shifts, ∀ i ∈ students,
        isAssigned availB SA (sid c) i = isAssigned availA SA (sid c) i := by
      intro c hc i hi
      by_cases hmem : ((sid c, i) ∈ SA)
      · have hA1 : availGet availA i (sid c) = 1 := (mem_varPairs (hsubA.subset hmem)).1
        have hB1 := hmono i (sid c) hA1
        simp [isAssigned, hA1, hB1]
      · simp [isAssigned, hmem]
    have hfeasB : feasibleB shifts students availB caps SA = true := by
      rw [feasibleB_congr hpt]
      exact hfeasA
    have hle := coverageSumVal_le_phase1 hfeasB
    rw [coverageSumVal_congr hpt] at hle
    exact hle

/-- C8, witness at a concrete input. -/
theorem C8_coverage_monotone_witness :
    phase1Coverage SHIFTS_CONFIG ["A"] availMonEarly [] ≤
      phase1Coverage SHIFTS_CONFIG ["A"] availMonEarly [] :=
  C8_coverage_monotone SHIFTS_CONFIG ["A"] [] availMonEarly availMonEarly
    (fun _ _ h => h)

/-- C9: on success the display schedule has exactly one record per
configured shift in the calendar's original order, labelled
`"Day start-end"` to two decimals (`shiftKey`); the visual grid exposes
the sorted roster (a sorted permutation of the student list), the
ordered shift labels, and a 0/1 flag per (student, label) pair that is 1
exactly when that student is assigned that shift; every student of the
student-hours mapping appears in the grid's student list, and every
record label of the schedule appears in the grid's shift-key list. -/
theorem C9_result_views_consistent (students : List String) (avail : Avail) (S : Sol)
    (hid : (SHIFTS_CONFIG.map sid).Nodup) :
    display_schedule SHIFTS_CONFIG students avail S =
      SHIFTS_CONFIG.map (fun c =>
        { baseRecord students avail S c with shift := shiftKey c }) ∧
    (visual_grid_data SHIFTS_CONFIG students avail S).students = sortStudents students ∧
    List.Perm (sortStudents students) students ∧
    List.Sorted (· ≤ ·) (sortStudents students) ∧
    (visual_grid_data SHIFTS_CONFIG students avail S).shift_keys =
      shiftKeysList SHIFTS_CONFIG ∧
    (∀ i ∈ students,
      dictGet (visual_assignments SHIFTS_CONFIG students avail S) i =
        some (visualRow SHIFTS_CONFIG avail S i) ∧
      (∀ c ∈ SHIFTS_CONFIG,
        dictGet (visualRow SHIFTS_CONFIG avail S i) (shiftKey c) =
          some (if isAssigned avail S (sid c) i then (1 : ℤ) else 0))) ∧
    (∀ p ∈ student_hours_list SHIFTS_CONFIG students avail S,
      p.1 ∈ (visual_grid_data SHIFTS_CONFIG students avail S).students) ∧
    (∀ r ∈ display_schedule SHIFTS_CONFIG students avail S,
      r.shift ∈ (visual_grid_data SHIFTS_CONFIG students avail S).shift_keys) := by
  have hkeys : (SHIFTS_CONFIG.map shiftKey).Nodup :=
    (by decide :
      (SHIFTS_CONFIG.map sid).Nodup → (SHIFTS_CONFIG.map shiftKey).Nodup) hid
  refine ⟨display_schedule_eq_map hkeys, rfl, perm_sortStudents students,
    sorted_sortStudents students, rfl, ?_, ?_, ?_⟩
  · intro i hi
    constructor
    · exact dictGet_map_self (visualRow SHIFTS_CONFIG avail S) hi
    · intro c hc
      exact dictGet_map_nodup shiftKey
        (fun c => if isAssigned avail S (sid c) i then (1 : ℤ) else 0) hkeys hc
  · intro p hp
    obtain ⟨i, hi, rfl⟩ := List.mem_map.mp hp
    show i ∈ sortStudents students
    exact (perm_sortStudents students).mem_iff.mpr hi
  · intro r hr
    rw [display_schedule_eq_map hkeys] at hr
    obtain ⟨c, hc, rfl⟩ := List.mem_map.mp hr
    show shiftKey c ∈ shiftKeysList SHIFTS_CONFIG
    exact shiftKey_mem_shiftKeysList hc

/-- C9, witness at a concrete input. -/
theorem C9_result_views_consistent_witness :
    (SHIFTS_CONFIG.map sid).Nodup ∧
    display_schedule SHIFTS_CONFIG ["A"] availNone [] =
      SHIFTS_CONFIG.map (fun c =>
        { baseRecord ["A"] availNone [] c with shift := shiftKey c }) :=
  ⟨by decide, (C9_result_views_consistent ["A"] availNone [] (by decide)).1⟩

/-- C10: for every student in the roster, the unscaled hour total of the
student-hours mapping (sum of raw durations `end - start` over the
student's assigned shifts) equals the scaled solver aggregate (sum of
`int(duration * 100)`) divided by the scale factor 100. -/
theorem C10_hours_agree_after_unscaling (students : List String) (avail : Avail)
    (S : Sol) (i : String) (hi : i ∈ students) :
    (i, final_student_hours SHIFTS_CONFIG avail S i) ∈
      student_hours_list SHIFTS_CONFIG students avail S ∧
    final_student_hours SHIFTS_CONFIG avail S i =
      (totalHoursScaled SHIFTS_CONFIG avail S i : ℚ) / 100 := by
  constructor
  · exact List.mem_map.mpr ⟨i, hi, rfl⟩
  · have hs : ∀ c ∈ SHIFTS_CONFIG, ((shiftHoursScaled c : ℤ) : ℚ) = shiftLen c * 100 := by
      decide
    rw [eq_div_iff (by norm_num : (100 : ℚ) ≠ 0)]
    unfold final_student_hours totalHoursScaled
    rw [sum_map_mul_right_q, castSum_int]
    refine sum_map_congr (fun c hc => ?_)
    by_cases h : isAssigned avail S (sid c) i
    · rw [if_pos h, if_pos h]
      exact (hs c hc).symm
    · rw [if_neg h, if_neg h]
      simp

/-- C10, witness at a concrete input. -/
theorem C10_hours_agree_after_unscaling_witness :
    ("A", final_student_hours SHIFTS_CONFIG availNone [] "A") ∈
      student_hours_list SHIFTS_CONFIG ["A"] availNone [] ∧
    final_student_hours SHIFTS_CONFIG availNone [] "A" =
      (totalHoursScaled SHIFTS_CONFIG availNone [] "A" : ℚ) / 100 :=
  C10_hours_agree_after_unscaling ["A"] availNone [] "A" (by decide)

end Claims

end StudentScheduling
